/-
Verification of the dependency-scanning core (DependencyScanningTool) and the
Swift-to-Clang core scaffold printer.

The public façade `DependencyScanningTool` is declared in
include/swift/SwiftScan/DependencyScanningTool.h; its engine (cache,
traversal, batch loop) is described by the design document, so those parts
are modelled from the spec.  The printer functions are translated from
lib/PrintAsClang/PrintSwiftToClangCoreScaffold.cpp.
-/
import Mathlib

namespace SwiftScan

/-- Modelled from the spec: the kind discriminator of a `ModuleIdentity`
(first-party source module, pre-built binary module, system/Clang-style
module, placeholder).  The real enum lives outside the provided sources. -/
inductive ModuleKind where
  | firstParty
  | binary
  | system
  | placeholderKind
  deriving DecidableEq, Repr

/-- Modelled from the spec: a module identity is a module name plus a kind
discriminator; two identities are equal iff name and kind match.  The real
type (`ModuleDependencyID`) lives outside the provided sources. -/
structure ModuleIdentity where
  name : String
  kind : ModuleKind
  deriving DecidableEq, Repr

/-- Modelled from the spec: one node of the dependency graph
(`ModuleDependencyInfo`): its identity, the identities it directly imports,
and the flag marking whether it was resolved as a placeholder.  The real
type lives outside the provided sources. -/
structure ModuleDependencyInfo where
  identity : ModuleIdentity
  directDeps : List ModuleIdentity
  isPlaceholder : Bool
  deriving DecidableEq, Repr

/-- Modelled from the spec: the answer of the frontend collaborator for one
module: either its direct import list (plus metadata) or a parse failure.
A module absent from the frontend table is a module-not-found. -/
inductive FrontendEntry where
  | imports (deps : List ModuleIdentity)
  | parseFailure
  deriving DecidableEq, Repr

/-- Modelled from the spec: the frontend collaborator, a black box that per
module returns "list of imported module names plus this module's own
metadata", as a finite table. -/
abbrev Frontend := List (ModuleIdentity × FrontendEntry)

/-- Modelled from the spec: `ModuleDependenciesCache`, a mapping from module
identity to `ModuleDependencyInfo`.  The real class lives outside the
provided sources (only the `SharedCache` field of the tool is declared). -/
abbrev Cache := List (ModuleIdentity × ModuleDependencyInfo)

/-- Modelled from the spec: the error taxonomy of §7. -/
inductive ScanError where
  | invalidInvocationError (diag : String)
  | moduleNotFoundError (id : ModuleIdentity) (importChain : List ModuleIdentity)
  | moduleParseError (id : ModuleIdentity) (importChain : List ModuleIdentity)
  | cyclicDependencyError (cycle : List ModuleIdentity)
  deriving DecidableEq, Repr

/-- Association lookup in the frontend table. -/
def lookupFrontend (F : Frontend) (id : ModuleIdentity) : Option FrontendEntry :=
  match F with
  | [] => none
  | (k, e) :: rest => if k = id then some e else lookupFrontend rest id

/-- Association lookup in the cache. -/
def lookupCache (cache : Cache) (id : ModuleIdentity) : Option ModuleDependencyInfo :=
  match cache with
  | [] => none
  | (k, i) :: rest => if k = id then some i else lookupCache rest id

/-- Modelled from the spec: cache insertion is insert-if-absent only. -/
def insertIfAbsent (cache : Cache) (id : ModuleIdentity) (info : ModuleDependencyInfo) : Cache :=
  if (lookupCache cache id).isSome then cache else cache ++ [(id, info)]

/-- Modelled from the spec: the node recorded for a placeholder module: no
expanded dependencies, marked placeholder. -/
def placeholderInfo (id : ModuleIdentity) : ModuleDependencyInfo :=
  ⟨id, [], true⟩

/-- First suffix of the (root-first) path that starts at `id`, used to name
a detected cycle. -/
def dropUntil (id : ModuleIdentity) : List ModuleIdentity → List ModuleIdentity
  | [] => []
  | x :: xs => if x = id then x :: xs else dropUntil id xs

/-- Modelled from the spec: the cycle named by `CyclicDependencyError` when
`id` is re-encountered with in-progress path `path` (innermost first):
the cycle from the first occurrence of `id` back to `id`. -/
def cycleFrom (path : List ModuleIdentity) (id : ModuleIdentity) : List ModuleIdentity :=
  dropUntil id path.reverse ++ [id]

/-- The identities appearing as keys of the frontend table. -/
def frontendKeys (F : Frontend) : List ModuleIdentity := F.map (·.1)

theorem lookupFrontend_mem_keys {F : Frontend} {id : ModuleIdentity} {e : FrontendEntry}
    (h : lookupFrontend F id = some e) : id ∈ frontendKeys F := by
  induction F with
  | nil => simp [lookupFrontend] at h
  | cons p rest ih =>
    rw [lookupFrontend] at h
    by_cases hk : p.1 = id
    · simp [frontendKeys, hk]
    · simp only [hk, if_neg] at h
      · exact List.mem_cons_of_mem _ (ih h)

theorem sdiff_card_lt (keys path : List ModuleIdentity) (id : ModuleIdentity)
    (hk : id ∈ keys) (hp : id ∉ path) :
    ((keys.toFinset \ (id :: path).toFinset).card) < (keys.toFinset \ path.toFinset).card := by
  have hmem : id ∈ keys.toFinset \ path.toFinset := by
    simp [Finset.mem_sdiff, List.mem_toFinset, hk, hp]
  have hsub : keys.toFinset \ (id :: path).toFinset = (keys.toFinset \ path.toFinset).erase id := by
    ext x
    simp only [Finset.mem_sdiff, List.toFinset_cons, Finset.mem_insert, Finset.mem_erase,
      List.mem_toFinset]
    tauto
  rw [hsub]
  exact Finset.card_erase_lt_of_mem hmem

mutual

/-- Modelled from the spec: the depth-first, memoized resolution algorithm of
§4.2 (`DependencyResolutionEngine.resolve` for one identity).  Returns the
updated cache, the log of identities on which the frontend collaborator was
invoked (in invocation order), and `none` on success or the `ScanError`
describing the first fatal condition (the cache keeps the partial population
of successfully resolved sub-trees).  `path` is the in-progress traversal
path, innermost first; `placeholders` is the caller-supplied set of module
names to be treated as opaque leaves. -/
def resolveModule (F : Frontend) (placeholders : List String) (id : ModuleIdentity)
    (path : List ModuleIdentity) (cache : Cache) :
    Cache × List ModuleIdentity × Option ScanError :=
  if id.name ∈ placeholders then
    (insertIfAbsent cache id (placeholderInfo id), [], none)
  else if (lookupCache cache id).isSome then
    (cache, [], none)
  else if hpath : id ∈ path then
    (cache, [], some (.cyclicDependencyError (cycleFrom path id)))
  else
    match hF : lookupFrontend F id with
    | none => (cache, [id], some (.moduleNotFoundError id path.reverse))
    | some .parseFailure => (cache, [id], some (.moduleParseError id path.reverse))
    | some (.imports deps) =>
      match resolveList F placeholders deps (id :: path) cache with
      | (c', calls, some e) => (c', id :: calls, some e)
      | (c', calls, none) => (insertIfAbsent c' id ⟨id, deps, false⟩, id :: calls, none)
termination_by (((frontendKeys F).toFinset \ path.toFinset).card, 0)
decreasing_by
  apply Prod.Lex.left
  exact sdiff_card_lt _ _ _ (lookupFrontend_mem_keys hF) hpath

/-- Modelled from the spec: resolution of a list of direct imports, in the
order the frontend collaborator reports them, threading the cache; stops at
the first fatal condition. -/
def resolveList (F : Frontend) (placeholders : List String) (deps : List ModuleIdentity)
    (path : List ModuleIdentity) (cache : Cache) :
    Cache × List ModuleIdentity × Option ScanError :=
  match deps with
  | [] => (cache, [], none)
  | d :: ds =>
    match resolveModule F placeholders d path cache with
    | (c₁, calls₁, some e) => (c₁, calls₁, some e)
    | (c₁, calls₁, none) =>
      match resolveList F placeholders ds path c₁ with
      | (c₂, calls₂, r) => (c₂, calls₁ ++ calls₂, r)
termination_by (((frontendKeys F).toFinset \ path.toFinset).card, deps.length + 1)
decreasing_by
  · apply Prod.Lex.right
    omega
  · apply Prod.Lex.right
    simp only [List.length_cons]
    omega

end

theorem resolveModule_placeholder {F : Frontend} {placeholders : List String}
    {id : ModuleIdentity} {path : List ModuleIdentity} {cache : Cache}
    (h : id.name ∈ placeholders) :
    resolveModule F placeholders id path cache =
      (insertIfAbsent cache id (placeholderInfo id), [], none) := by
  rw [resolveModule.eq_def]
  simp [h]

theorem resolveModule_hit {F : Frontend} {placeholders : List String}
    {id : ModuleIdentity} {path : List ModuleIdentity} {cache : Cache}
    (h1 : id.name ∉ placeholders) (h2 : (lookupCache cache id).isSome) :
    resolveModule F placeholders id path cache = (cache, [], none) := by
  rw [resolveModule.eq_def]
  simp [h1, h2]

theorem resolveModule_cycle {F : Frontend} {placeholders : List String}
    {id : ModuleIdentity} {path : List ModuleIdentity} {cache : Cache}
    (h1 : id.name ∉ placeholders) (h2 : ¬(lookupCache cache id).isSome)
    (h3 : id ∈ path) :
    resolveModule F placeholders id path cache =
      (cache, [], some (.cyclicDependencyError (cycleFrom path id))) := by
  rw [resolveModule.eq_def]
  simp [h1, h2, h3]

theorem resolveModule_notFound {F : Frontend} {placeholders : List String}
    {id : ModuleIdentity} {path : List ModuleIdentity} {cache : Cache}
    (h1 : id.name ∉ placeholders) (h2 : ¬(lookupCache cache id).isSome)
    (h3 : id ∉ path) (h4 : lookupFrontend F id = none) :
    resolveModule F placeholders id path cache =
      (cache, [id], some (.moduleNotFoundError id path.reverse)) := by
  rw [resolveModule.eq_def]
  simp only [h1, h2, h3, if_neg, if_false, dite_false, ite_false, Bool.false_eq_true]
  split
  · rfl
  · simp_all
  · simp_all

theorem resolveModule_parseFailure {F : Frontend} {placeholders : List String}
    {id : ModuleIdentity} {path : List ModuleIdentity} {cache : Cache}
    (h1 : id.name ∉ placeholders) (h2 : ¬(lookupCache cache id).isSome)
    (h3 : id ∉ path) (h4 : lookupFrontend F id = some .parseFailure) :
    resolveModule F placeholders id path cache =
      (cache, [id], some (.moduleParseError id path.reverse)) := by
  rw [resolveModule.eq_def]
  simp only [h1, h2, h3, if_neg, if_false, dite_false, ite_false, Bool.false_eq_true]
  split
  · simp_all
  · rfl
  · simp_all

theorem resolveModule_imports {F : Frontend} {placeholders : List String}
    {id : ModuleIdentity} {path : List ModuleIdentity} {cache : Cache}
    {deps : List ModuleIdentity}
    (h1 : id.name ∉ placeholders) (h2 : ¬(lookupCache cache id).isSome)
    (h3 : id ∉ path) (h4 : lookupFrontend F id = some (.imports deps)) :
    resolveModule F placeholders id path cache =
      (match resolveList F placeholders deps (id :: path) cache with
      | (c', calls, some e) => (c', id :: calls, some e)
      | (c', calls, none) => (insertIfAbsent c' id ⟨id, deps, false⟩, id :: calls, none)) := by
  rw [resolveModule.eq_def]
  simp only [h1, h2, h3, if_neg, if_false, dite_false, ite_false, Bool.false_eq_true]
  split
  · simp_all
  · simp_all
  · rename_i deps' hF
    rw [h4] at hF
    cases hF
    rfl

theorem resolveList_nil {F : Frontend} {placeholders : List String}
    {path : List ModuleIdentity} {cache : Cache} :
    resolveList F placeholders [] path cache = (cache, [], none) := by
  rw [resolveList.eq_def]

theorem resolveList_cons {F : Frontend} {placeholders : List String}
    {d : ModuleIdentity} {ds path : List ModuleIdentity} {cache : Cache} :
    resolveList F placeholders (d :: ds) path cache =
      (match resolveModule F placeholders d path cache with
      | (c₁, calls₁, some e) => (c₁, calls₁, some e)
      | (c₁, calls₁, none) =>
        match resolveList F placeholders ds path c₁ with
        | (c₂, calls₂, r) => (c₂, calls₁ ++ calls₂, r)) := by
  rw [resolveList.eq_def]

/-- The keys (identities) of the cache. -/
def cacheKeys (c : Cache) : List ModuleIdentity := c.map (·.1)

/-- Modelled from the spec: the cache invariant "at most one entry per
identity". -/
def keysNodup (c : Cache) : Prop := (cacheKeys c).Nodup

instance (c : Cache) : Decidable (keysNodup c) := by
  unfold keysNodup
  infer_instance

theorem lookupCache_eq_none_iff {c : Cache} {x : ModuleIdentity} :
    lookupCache c x = none ↔ x ∉ cacheKeys c := by
  induction c with
  | nil => simp [lookupCache, cacheKeys]
  | cons p rest ih =>
    rw [lookupCache]
    by_cases hk : p.1 = x
    · simp [hk, cacheKeys]
    · rw [if_neg hk, ih]
      unfold cacheKeys
      rw [List.map_cons, List.mem_cons]
      constructor
      · intro hn h
        rcases h with h | h
        · exact hk h.symm
        · exact hn h
      · intro hn h
        exact hn (Or.inr h)

theorem lookupCache_append (c₁ c₂ : Cache) (x : ModuleIdentity) :
    lookupCache (c₁ ++ c₂) x =
      match lookupCache c₁ x with
      | some i => some i
      | none => lookupCache c₂ x := by
  induction c₁ with
  | nil => simp [lookupCache]
  | cons p rest ih =>
    rw [List.cons_append, lookupCache, lookupCache]
    by_cases hk : p.1 = x
    · simp [hk]
    · simp [hk, ih]

theorem lookupCache_insertIfAbsent_of_some {c : Cache} {x : ModuleIdentity}
    {j : ModuleDependencyInfo} (id : ModuleIdentity) (i : ModuleDependencyInfo)
    (h : lookupCache c x = some j) :
    lookupCache (insertIfAbsent c id i) x = some j := by
  unfold insertIfAbsent
  split
  · exact h
  · rw [lookupCache_append, h]

theorem lookupCache_insertIfAbsent_self (c : Cache) (id : ModuleIdentity)
    (i : ModuleDependencyInfo) :
    (lookupCache (insertIfAbsent c id i) id).isSome := by
  unfold insertIfAbsent
  split
  · assumption
  · rename_i hnone
    rw [lookupCache_append]
    cases hc : lookupCache c id with
    | some j => simp
    | none => simp [lookupCache]

theorem insertIfAbsent_of_isSome {c : Cache} {id : ModuleIdentity}
    (i : ModuleDependencyInfo) (h : (lookupCache c id).isSome) :
    insertIfAbsent c id i = c := by
  unfold insertIfAbsent
  simp [h]

theorem lookupCache_singleton (id x : ModuleIdentity) (i : ModuleDependencyInfo) :
    lookupCache [(id, i)] x = if id = x then some i else none := rfl

theorem lookupCache_insertIfAbsent_ne {c : Cache} {x id : ModuleIdentity}
    (i : ModuleDependencyInfo) (h : x ≠ id) :
    lookupCache (insertIfAbsent c id i) x = lookupCache c x := by
  unfold insertIfAbsent
  split
  · rfl
  · rw [lookupCache_append]
    cases hc : lookupCache c x with
    | some j => rfl
    | none =>
      rw [lookupCache_singleton, if_neg (fun hh => h hh.symm)]

theorem keysNodup_insertIfAbsent {c : Cache} (id : ModuleIdentity)
    (i : ModuleDependencyInfo) (h : keysNodup c) :
    keysNodup (insertIfAbsent c id i) := by
  unfold insertIfAbsent
  split
  · exact h
  · rename_i hnone
    have hid : id ∉ cacheKeys c := by
      rw [← lookupCache_eq_none_iff]
      simpa using hnone
    unfold keysNodup
    have hkeys : cacheKeys (c ++ [(id, i)]) = cacheKeys c ++ [id] := by
      unfold cacheKeys
      rw [List.map_append]
      rfl
    rw [hkeys, List.nodup_append]
    refine ⟨h, List.nodup_singleton id, ?_⟩
    intro a ha hb
    rw [List.mem_singleton] at hb
    exact hid (hb ▸ ha)

/-- Modelled from the spec: one cache state extends another when every entry
of the first is still present, with the same value, in the second (no entry
removed, none overwritten). -/
def CacheExtends (c c' : Cache) : Prop :=
  ∀ x i, lookupCache c x = some i → lookupCache c' x = some i

theorem CacheExtends.refl (c : Cache) : CacheExtends c c := fun _ _ h => h

theorem CacheExtends.trans {c₁ c₂ c₃ : Cache}
    (h₁ : CacheExtends c₁ c₂) (h₂ : CacheExtends c₂ c₃) : CacheExtends c₁ c₃ :=
  fun x i h => h₂ x i (h₁ x i h)

theorem cacheExtends_insertIfAbsent (c : Cache) (id : ModuleIdentity)
    (i : ModuleDependencyInfo) : CacheExtends c (insertIfAbsent c id i) :=
  fun _ _ h => lookupCache_insertIfAbsent_of_some _ _ h

theorem lookupCache_insertIfAbsent_cases {c : Cache} {id x : ModuleIdentity}
    {i₀ i : ModuleDependencyInfo}
    (h : lookupCache (insertIfAbsent c id i₀) x = some i) :
    lookupCache c x = some i ∨ (x = id ∧ i = i₀) := by
  unfold insertIfAbsent at h
  split at h
  · exact Or.inl h
  · rw [lookupCache_append] at h
    cases hc : lookupCache c x with
    | some j =>
      rw [hc] at h
      exact Or.inl h
    | none =>
      rw [hc, lookupCache_singleton] at h
      by_cases hx : id = x
      · rw [if_pos hx] at h
        cases h
        exact Or.inr ⟨hx.symm, rfl⟩
      · rw [if_neg hx] at h
        cases h

/-- The invariant relating the cache before and after one resolution step:
the cache only grows (nothing removed, nothing overwritten), key uniqueness
is preserved, the frontend is never invoked on a placeholder-named module,
and every entry added for a placeholder-named module is the placeholder
node. -/
def ResolveInv (placeholders : List String) (cache c' : Cache)
    (calls : List ModuleIdentity) : Prop :=
  CacheExtends cache c' ∧
  (keysNodup cache → keysNodup c') ∧
  (∀ x ∈ calls, x.name ∉ placeholders) ∧
  (∀ x i, x.name ∈ placeholders → lookupCache c' x = some i →
    lookupCache cache x = some i ∨ i = placeholderInfo x)

theorem resolveInv_of_unchanged {placeholders : List String} {cache : Cache} :
    ResolveInv placeholders cache cache [] := by
  refine ⟨CacheExtends.refl cache, fun h => h, ?_, ?_⟩
  · intro x hx
    cases hx
  · intro x i _ h
    exact Or.inl h

theorem resolve_master (F : Frontend) (placeholders : List String) :
    ∀ id path cache c' calls eo,
      resolveModule F placeholders id path cache = (c', calls, eo) →
      ResolveInv placeholders cache c' calls := by
  intro id₀ path₀ cache₀
  refine resolveModule.induct F placeholders
    (fun id path cache => ∀ c' calls eo,
      resolveModule F placeholders id path cache = (c', calls, eo) →
      ResolveInv placeholders cache c' calls)
    (fun deps path cache => ∀ c' calls eo,
      resolveList F placeholders deps path cache = (c', calls, eo) →
      ResolveInv placeholders cache c' calls)
    ?_ ?_ ?_ ?_ ?_ ?_ ?_ ?_ ?_ ?_ id₀ path₀ cache₀
  · -- placeholder branch
    intro id path cache hph c' calls eo h
    rw [resolveModule_placeholder hph] at h
    simp only [Prod.mk.injEq] at h
    obtain ⟨rfl, rfl, rfl⟩ := h
    refine ⟨cacheExtends_insertIfAbsent _ _ _, keysNodup_insertIfAbsent _ _, ?_, ?_⟩
    · intro x hx
      cases hx
    · intro x i _ hlook
      rcases lookupCache_insertIfAbsent_cases hlook with hc | ⟨rfl, rfl⟩
      · exact Or.inl hc
      · exact Or.inr rfl
  · -- cache-hit branch
    intro id path cache hph hhit c' calls eo h
    rw [resolveModule_hit hph hhit] at h
    simp only [Prod.mk.injEq] at h
    obtain ⟨rfl, rfl, rfl⟩ := h
    exact resolveInv_of_unchanged
  · -- cycle branch
    intro id path cache hph hhit hpath c' calls eo h
    rw [resolveModule_cycle hph hhit hpath] at h
    simp only [Prod.mk.injEq] at h
    obtain ⟨rfl, rfl, rfl⟩ := h
    exact resolveInv_of_unchanged
  · -- module-not-found branch
    intro id path cache hph hhit hpath hF c' calls eo h
    rw [resolveModule_notFound hph hhit hpath hF] at h
    simp only [Prod.mk.injEq] at h
    obtain ⟨rfl, rfl, rfl⟩ := h
    refine ⟨CacheExtends.refl _, fun hh => hh, ?_, ?_⟩
    · intro x hx
      rw [List.mem_singleton] at hx
      subst hx
      exact hph
    · intro x i _ hlook
      exact Or.inl hlook
  · -- parse-failure branch
    intro id path cache hph hhit hpath hF c' calls eo h
    rw [resolveModule_parseFailure hph hhit hpath hF] at h
    simp only [Prod.mk.injEq] at h
    obtain ⟨rfl, rfl, rfl⟩ := h
    refine ⟨CacheExtends.refl _, fun hh => hh, ?_, ?_⟩
    · intro x hx
      rw [List.mem_singleton] at hx
      subst hx
      exact hph
    · intro x i _ hlook
      exact Or.inl hlook
  · -- imports branch, sub-resolution fails
    intro id path cache hph hhit hpath deps hF c₁ calls₁ e hlist ih c' calls eo h
    rw [resolveModule_imports hph hhit hpath hF, hlist] at h
    simp only [Prod.mk.injEq] at h
    obtain ⟨rfl, rfl, rfl⟩ := h
    obtain ⟨hext, hnd, hcalls, hnew⟩ := ih _ _ _ hlist
    refine ⟨hext, hnd, ?_, hnew⟩
    intro x hx
    rcases List.mem_cons.mp hx with rfl | hx'
    · exact hph
    · exact hcalls x hx'
  · -- imports branch, sub-resolution succeeds
    intro id path cache hph hhit hpath deps hF c₁ calls₁ hlist ih c' calls eo h
    rw [resolveModule_imports hph hhit hpath hF, hlist] at h
    simp only [Prod.mk.injEq] at h
    obtain ⟨rfl, rfl, rfl⟩ := h
    obtain ⟨hext, hnd, hcalls, hnew⟩ := ih _ _ _ hlist
    refine ⟨hext.trans (cacheExtends_insertIfAbsent _ _ _),
      fun hh => keysNodup_insertIfAbsent _ _ (hnd hh), ?_, ?_⟩
    · intro x hx
      rcases List.mem_cons.mp hx with rfl | hx'
      · exact hph
      · exact hcalls x hx'
    · intro x i hxph hlook
      rcases lookupCache_insertIfAbsent_cases hlook with hc | ⟨rfl, rfl⟩
      · exact hnew x i hxph hc
      · exact absurd hxph hph
  · -- empty import list
    intro path cache c' calls eo h
    rw [resolveList_nil] at h
    simp only [Prod.mk.injEq] at h
    obtain ⟨rfl, rfl, rfl⟩ := h
    exact resolveInv_of_unchanged
  · -- import list, head fails
    intro path cache d ds c₁ calls₁ e hd ih c' calls eo h
    rw [resolveList_cons, hd] at h
    simp only [Prod.mk.injEq] at h
    obtain ⟨rfl, rfl, rfl⟩ := h
    exact ih _ _ _ hd
  · -- import list, head succeeds
    intro path cache d ds c₁ calls₁ hd c₂ calls₂ r hds ih₁ ih₂ c' calls eo h
    rw [resolveList_cons, hd] at h
    simp only [hds, Prod.mk.injEq] at h
    obtain ⟨rfl, rfl, rfl⟩ := h
    obtain ⟨hext₁, hnd₁, hcalls₁, hnew₁⟩ := ih₁ _ _ _ hd
    obtain ⟨hext₂, hnd₂, hcalls₂, hnew₂⟩ := ih₂ _ _ _ hds
    refine ⟨hext₁.trans hext₂, fun hh => hnd₂ (hnd₁ hh), ?_, ?_⟩
    · intro x hx
      rcases List.mem_append.mp hx with hx' | hx'
      · exact hcalls₁ x hx'
      · exact hcalls₂ x hx'
    · intro x i hxph hlook
      rcases hnew₂ x i hxph hlook with hc | hph'
      · rcases hnew₁ x i hxph hc with hc' | hph'
        · exact Or.inl hc'
        · exact Or.inr hph'
      · exact Or.inr hph'

theorem resolveModule_ok_cached {F : Frontend} {placeholders : List String}
    {id : ModuleIdentity} {path : List ModuleIdentity} {cache c' : Cache}
    {calls : List ModuleIdentity}
    (h : resolveModule F placeholders id path cache = (c', calls, none)) :
    (lookupCache c' id).isSome := by
  by_cases hph : id.name ∈ placeholders
  · rw [resolveModule_placeholder hph] at h
    simp only [Prod.mk.injEq] at h
    obtain ⟨rfl, -, -⟩ := h
    exact lookupCache_insertIfAbsent_self _ _ _
  by_cases hhit : (lookupCache cache id).isSome
  · rw [resolveModule_hit hph hhit] at h
    simp only [Prod.mk.injEq] at h
    obtain ⟨rfl, -, -⟩ := h
    exact hhit
  by_cases hpath : id ∈ path
  · rw [resolveModule_cycle hph hhit hpath] at h
    simp at h
  cases hF : lookupFrontend F id with
  | none =>
    rw [resolveModule_notFound hph hhit hpath hF] at h
    simp at h
  | some e =>
    cases e with
    | parseFailure =>
      rw [resolveModule_parseFailure hph hhit hpath hF] at h
      simp at h
    | imports deps =>
      rw [resolveModule_imports hph hhit hpath hF] at h
      rcases hres : resolveList F placeholders deps (id :: path) cache with ⟨c₁, calls₁, eo⟩
      rw [hres] at h
      cases eo with
      | some e' => simp at h
      | none =>
        simp only [Prod.mk.injEq] at h
        obtain ⟨rfl, -, -⟩ := h
        exact lookupCache_insertIfAbsent_self _ _ _

/-- Fuel for the reachability computation: more steps than any traversal of
the cache's edges can take. -/
def graphFuel (cache : Cache) : Nat :=
  cache.foldl (fun n p => n + p.2.directDeps.length) (cache.length + 2)

/-- Worklist computation of the identities reachable from the frontier
through the cache's direct-dependency edges. -/
def reachableAux (cache : Cache) :
    Nat → List ModuleIdentity → List ModuleIdentity → List ModuleIdentity
  | 0, _, visited => visited
  | _ + 1, [], visited => visited
  | fuel + 1, id :: frontier, visited =>
    if id ∈ visited then reachableAux cache fuel frontier visited
    else
      match lookupCache cache id with
      | some info => reachableAux cache fuel (info.directDeps ++ frontier) (visited ++ [id])
      | none => reachableAux cache fuel frontier (visited ++ [id])

/-- The identities reachable from `start` through the cache's edges. -/
def reachableFrom (cache : Cache) (start : ModuleIdentity) : List ModuleIdentity :=
  reachableAux cache (graphFuel cache) [start] []

/-- Modelled from the spec: the `DependencyGraph` resulting from one scan:
the set of all nodes transitively reachable from the start identity, read
back out of the cache (a view of the cache, not an owned copy). -/
def graphOf (cache : Cache) (start : ModuleIdentity) : List ModuleDependencyInfo :=
  (reachableFrom cache start).filterMap (lookupCache cache)

/-- Modelled from the spec: the serialization collaborator that renders the
graph as text (the exact format is external to the scanning core). -/
def serializeNode (info : ModuleDependencyInfo) : String :=
  info.identity.name ++ " -> " ++ String.intercalate ", " (info.directDeps.map (·.name))

/-- Modelled from the spec: serialized textual representation of a graph. -/
def serializeGraph (g : List ModuleDependencyInfo) : String :=
  String.intercalate "\n" (g.map serializeNode)

/-- Modelled from the spec: the one-shot compiler-frontend instance built by
the bootstrap: the configured frontend collaborator plus the invocation's
root module (the real `CompilerInstance` lives outside the provided
sources). -/
structure CompilerInstance where
  frontend : Frontend
  rootModule : ModuleIdentity
  deriving DecidableEq

/-- Modelled from the spec: a compilation invocation: the raw command-line
arguments together with the outcome of parsing/validating them (the
argument format itself is external to the scanning core): the diagnostic
text when malformed, or the configured instance. -/
structure Invocation where
  command : List String
  parseResult : Except String CompilerInstance

/-- Modelled from the spec: `DependencyScanningTool::initCompilerInstanceForScan`
(§4.1): builds the instance or fails with `InvalidInvocationError` carrying
the diagnostic text; it has no side effects and does not touch the cache
(it is not even passed the cache). -/
def initCompilerInstanceForScan (inv : Invocation) : Except ScanError CompilerInstance :=
  match inv.parseResult with
  | .error diag => .error (.invalidInvocationError diag)
  | .ok ci => .ok ci

/-- The dependency scanning tool façade of DependencyScanningTool.h: owns
one shared cache (`SharedCache`) for its entire lifetime.  The diagnostic
consumer, allocator and string saver of the header are printing/memory
plumbing with no bearing on the scanning semantics. -/
structure DependencyScanningTool where
  sharedCache : Cache
  deriving DecidableEq

/-- Modelled from the spec: `DependencyScanningTool()` constructs a tool
with a fresh, empty cache (no cross-tool sharing). -/
def DependencyScanningTool.new : DependencyScanningTool := ⟨[]⟩

/-- Modelled from the spec: the single-query entry point
`getDependencies(Command, PlaceholderModules)`: bootstrap, resolve from the
invocation's root module against the tool's own cache, serialize the full
graph; returns the result together with the tool (whose cache keeps the
partial population of successfully resolved sub-trees). -/
def getDependencies (tool : DependencyScanningTool) (inv : Invocation)
    (placeholderModules : List String) :
    Except ScanError String × DependencyScanningTool :=
  match initCompilerInstanceForScan inv with
  | .error e => (.error e, tool)
  | .ok ci =>
    match resolveModule ci.frontend placeholderModules ci.rootModule [] tool.sharedCache with
    | (c', _, some e) => (.error e, ⟨c'⟩)
    | (c', _, none) => (.ok (serializeGraph (graphOf c' ci.rootModule)), ⟨c'⟩)

/-- Modelled from the spec: one batch request unit: a module name to
resolve plus an output destination. -/
structure BatchScanInput where
  moduleName : String
  outputPath : String
  deriving DecidableEq

/-- Modelled from the spec: the aggregate result of a batch scan: the
status (success iff every entry succeeded), the outputs written for the
successful entries, and the collected per-entry diagnostics of the failing
entries. -/
structure BatchResult where
  success : Bool
  outputs : List (String × String)
  failures : List (String × ScanError)
  deriving DecidableEq

/-- Modelled from the spec: the batch orchestration loop (§4.3): one entry
after the other, in the order given, against the one shared cache; a
per-entry failure records the entry's diagnostic and continues with the
next entry; requested root modules are classified as first-party source
modules. -/
def runBatch (ci : CompilerInstance) (batch : List BatchScanInput)
    (placeholderModules : List String) (cache : Cache) : BatchResult × Cache :=
  match batch with
  | [] => (⟨true, [], []⟩, cache)
  | entry :: rest =>
    let rootId : ModuleIdentity := ⟨entry.moduleName, .firstParty⟩
    match resolveModule ci.frontend placeholderModules rootId [] cache with
    | (c', _, some e) =>
      let (restRes, finalCache) := runBatch ci rest placeholderModules c'
      (⟨false, restRes.outputs, (entry.moduleName, e) :: restRes.failures⟩, finalCache)
    | (c', _, none) =>
      let (restRes, finalCache) := runBatch ci rest placeholderModules c'
      (⟨restRes.success, (entry.outputPath, serializeGraph (graphOf c' rootId)) :: restRes.outputs,
        restRes.failures⟩, finalCache)

/-- Modelled from the spec: the batch entry point
`getDependencies(Command, BatchInput, PlaceholderModules)`: bootstrap once
per batch, then delegate to the orchestrator with the tool's own cache. -/
def getDependenciesBatch (tool : DependencyScanningTool) (inv : Invocation)
    (batch : List BatchScanInput) (placeholderModules : List String) :
    BatchResult × DependencyScanningTool :=
  match initCompilerInstanceForScan inv with
  | .error e => (⟨false, [], [("<invocation>", e)]⟩, tool)
  | .ok ci =>
    let (res, c') := runBatch ci batch placeholderModules tool.sharedCache
    (res, ⟨c'⟩)

/-- A pair of independently constructed tools, for stating cross-instance
isolation: run a single query on the first tool, keeping the second tool
untouched. -/
def scanFirst (w : DependencyScanningTool × DependencyScanningTool)
    (inv : Invocation) (placeholderModules : List String) :
    Except ScanError String × (DependencyScanningTool × DependencyScanningTool) :=
  ((getDependencies w.1 inv placeholderModules).1,
    ((getDependencies w.1 inv placeholderModules).2, w.2))

/-- Run a single query on the second tool of a pair, keeping the first tool
untouched. -/
def scanSecond (w : DependencyScanningTool × DependencyScanningTool)
    (inv : Invocation) (placeholderModules : List String) :
    Except ScanError String × (DependencyScanningTool × DependencyScanningTool) :=
  ((getDependencies w.2 inv placeholderModules).1,
    (w.1, (getDependencies w.2 inv placeholderModules).2))

/-- A first-party module identity, the classification given to requested
root modules. -/
def fpId (s : String) : ModuleIdentity := ⟨s, .firstParty⟩

end SwiftScan

namespace PrintAsClang

/-- A Swift type, identified by its nominal type; only its lookup in the
`PrimitiveTypeMapping` matters to these printers
(`t->getNominalOrBoundGenericNominal()` is folded into the key). -/
structure Ty where
  nominal : String
  deriving DecidableEq

/-- Translated from the `PrimitiveTypeMapping` collaborator: the known C
type info of a nominal type: its C name and whether it can be nullable. -/
structure ClangTypeInfo where
  name : String
  canBeNullable : Bool
  deriving DecidableEq

/-- The `PrimitiveTypeMapping` collaborator as a finite table queried by
`getKnownCTypeInfo`. -/
abbrev PrimitiveTypeMapping := List (Ty × ClangTypeInfo)

/-- `typeMapping.getKnownCTypeInfo(...)`. -/
def getKnownCTypeInfo (typeMapping : PrimitiveTypeMapping) (t : Ty) : Option ClangTypeInfo :=
  match typeMapping with
  | [] => none
  | (k, i) :: rest => if k = t then some i else getKnownCTypeInfo rest t

/-- Translated from `printKnownCType`: prints the known C type of `t`,
followed by ` _Null_unspecified` when it can be nullable.  The original
asserts that the info exists; the violated assertion is modelled as
`none`. -/
def printKnownCType (t : Ty) (typeMapping : PrimitiveTypeMapping) : Option String :=
  (getKnownCTypeInfo typeMapping t).map fun info =>
    info.name ++ (if info.canBeNullable then " _Null_unspecified" else "")

/-- Translated from `IRABIDetailsProvider::TypeRecordABIRepresentation`:
a record of member types (`getMembers`). -/
structure TypeRecordABIRepresentation where
  members : List Ty
  deriving DecidableEq

/-- Translated from the loop body of `printKnownStruct`
(`llvm::enumerate(typeRecord.getMembers())`): one field line per member,
named `_<index>`, a member with no known C type modelled as `none`. -/
def structFields (typeMapping : PrimitiveTypeMapping) : Nat → List Ty → Option String
  | _, [] => some ""
  | idx, t :: ts =>
    match printKnownCType t typeMapping, structFields typeMapping (idx + 1) ts with
    | some c, some rest => some ("  " ++ c ++ " _" ++ toString idx ++ ";\n" ++ rest)
    | _, _ => none

/-- Translated from `printKnownStruct`: a C struct named `name` whose
fields are the record's members.  The original asserts more than one
member; the violated assertion is modelled as `none`. -/
def printKnownStruct (typeMapping : PrimitiveTypeMapping) (name : String)
    (typeRecord : TypeRecordABIRepresentation) : Option String :=
  if typeRecord.members.length > 1 then
    (structFields typeMapping 0 typeRecord.members).map fun fields =>
      "struct " ++ name ++ " \x7b\n" ++ fields ++ "\x7d;\n"
  else none

/-- Translated from `printKnownTypedef`: a C typedef of the record's single
member type.  The original asserts exactly one member; the violated
assertion is modelled as `none`. -/
def printKnownTypedef (typeMapping : PrimitiveTypeMapping) (name : String)
    (typeRecord : TypeRecordABIRepresentation) : Option String :=
  match typeRecord.members with
  | [t] => (printKnownCType t typeMapping).map fun c => "typedef " ++ c ++ " " ++ name ++ ";\n"
  | _ => none

/-- Translated from `printKnownType`: a typedef when the record has exactly
one member, otherwise a struct. -/
def printKnownType (typeMapping : PrimitiveTypeMapping) (name : String)
    (typeRecord : TypeRecordABIRepresentation) : Option String :=
  if typeRecord.members.length = 1 then printKnownTypedef typeMapping name typeRecord
  else printKnownStruct typeMapping name typeRecord

/-- Modelled from the spec: `cxx_synthesis::getCxxImplNamespaceName()`, the
name of the C++ implementation namespace (its definition is not among the
provided sources). -/
def getCxxImplNamespaceName : String := "_impl"

/-- Modelled from the spec: the `ClangSyntaxPrinter.printNamespace`
collaborator (its definition is not among the provided sources): wraps the
body in a named C++ namespace. -/
def printNamespace (name : String) (body : String) : String :=
  "namespace " ++ name ++ " \x7b\n" ++ body ++ "\x7d // namespace " ++ name ++ "\n"

/-- Modelled from the spec: the `ClangSyntaxPrinter.printExternC`
collaborator (its definition is not among the provided sources): wraps the
body in an `extern "C"` block. -/
def printExternC (body : String) : String :=
  "#ifdef __cplusplus\nextern \"C\" \x7b\n#endif\n" ++ body ++
    "#ifdef __cplusplus\n\x7d\n#endif\n"

/-- Translated from `IRABIDetailsProvider::FunctionABISignature` as used by
`getTypeMetadataAccessFunctionSignature()`: a return type and parameter
types. -/
structure FunctionSignature where
  returnType : TypeRecordABIRepresentation
  parameterTypes : List TypeRecordABIRepresentation
  deriving DecidableEq

/-- The `SwiftToClangInteropContext` collaborator, reduced to the only
query these printers make
(`ctx.getIrABIDetails().getTypeMetadataAccessFunctionSignature()`). -/
structure SwiftToClangInteropContext where
  typeMetadataAccessFunctionSignature : FunctionSignature
  deriving DecidableEq

/-- Translated from `printTypeMetadataResponseType`: prints the metadata
response type `MetadataResponseTy` (from the access function's return
type), then the metadata request type `MetadataRequestTy` (from its single
parameter type).  The original asserts exactly one parameter type; the
violated assertion is modelled as `none`. -/
def printTypeMetadataResponseType (ctx : SwiftToClangInteropContext)
    (typeMapping : PrimitiveTypeMapping) : Option String :=
  let funcSig := ctx.typeMetadataAccessFunctionSignature
  match printKnownType typeMapping "MetadataResponseTy" funcSig.returnType with
  | none => none
  | some resp =>
    match funcSig.parameterTypes with
    | [p] =>
      match printKnownType typeMapping "MetadataRequestTy" p with
      | none => none
      | some req =>
        some ("// Swift type metadata response type.\n" ++ resp ++
          "// Swift type metadata request type.\n" ++ req)
    | _ => none

/-- Translated from `printSwiftToClangCoreScaffold`: everything nested
inside `namespace swift`, then the C++ implementation namespace, then an
`extern "C"` block holding the type-metadata scaffolding. -/
def printSwiftToClangCoreScaffold (ctx : SwiftToClangInteropContext)
    (typeMapping : PrimitiveTypeMapping) : Option String :=
  (printTypeMetadataResponseType ctx typeMapping).map fun inner =>
    printNamespace "swift" (printNamespace getCxxImplNamespaceName (printExternC inner))

end PrintAsClang

namespace SwiftScan

/-- C1: for every identity resolved twice against the same cache instance,
the second resolution is a cache hit: if the first resolution succeeds and
leaves cache `c'`, the second resolution of the same identity against `c'`
returns the very node the first resolution put into the cache (identical by
value, since the cache is returned unchanged), and performs no frontend
invocation at all (empty invocation log). -/
theorem resolve_idempotent_cache_hit (F : Frontend) (placeholders : List String)
    (id : ModuleIdentity) (cache c' : Cache) (calls : List ModuleIdentity)
    (h : resolveModule F placeholders id [] cache = (c', calls, none)) :
    ∃ info, lookupCache c' id = some info ∧
      resolveModule F placeholders id [] c' = (c', [], none) := by
  have hs := resolveModule_ok_cached h
  obtain ⟨info, hinfo⟩ := Option.isSome_iff_exists.mp hs
  refine ⟨info, hinfo, ?_⟩
  by_cases hph : id.name ∈ placeholders
  · rw [resolveModule_placeholder hph, insertIfAbsent_of_isSome _ hs]
  · rw [resolveModule_hit hph hs]

/-- C1 witness: module A with no imports, resolved once from the empty
cache, then resolved again against the resulting cache. -/
theorem resolve_idempotent_cache_hit_witness :
    ∃ info, lookupCache [(fpId "A", ⟨fpId "A", [], false⟩)] (fpId "A") = some info ∧
      resolveModule [(fpId "A", .imports [])] [] (fpId "A") []
        [(fpId "A", ⟨fpId "A", [], false⟩)] =
      ([(fpId "A", ⟨fpId "A", [], false⟩)], [], none) :=
  resolve_idempotent_cache_hit [(fpId "A", .imports [])] [] (fpId "A") []
    [(fpId "A", ⟨fpId "A", [], false⟩)] [fpId "A"]
    (by simp [resolveModule, resolveList, lookupFrontend, lookupCache, insertIfAbsent, fpId])

/-- C2 counterexample: module A imports nothing and the placeholder set
contains the name P; the scan succeeds, yet the resulting graph contains no
node whose identity is named P, refuting "for every identity in the
placeholder set the graph contains a node for it". -/
theorem placeholder_not_contained_cex :
    resolveModule [(fpId "A", .imports [])] ["P"] (fpId "A") [] [] =
      ([(fpId "A", ⟨fpId "A", [], false⟩)], [fpId "A"], none) ∧
    ∀ info ∈ graphOf [(fpId "A", ⟨fpId "A", [], false⟩)] (fpId "A"),
      info.identity.name ≠ "P" := by
  constructor
  · simp [resolveModule, resolveList, lookupFrontend, lookupCache, insertIfAbsent, fpId]
  · decide

/-- C2 (amended): for every identity whose name is in the caller-supplied
placeholder set, a scan never invokes the frontend on it (no recursion into
it), and every node the scan adds to the cache for it has an empty
direct-dependency list and is marked placeholder, regardless of whether the
module actually has dependencies. -/
theorem placeholder_containment (F : Frontend) (placeholders : List String)
    (id : ModuleIdentity) (cache c' : Cache) (calls : List ModuleIdentity)
    (eo : Option ScanError) (x : ModuleIdentity)
    (h : resolveModule F placeholders id [] cache = (c', calls, eo))
    (hx : x.name ∈ placeholders) :
    x ∉ calls ∧
    (lookupCache cache x = none → ∀ i, lookupCache c' x = some i →
      i.directDeps = [] ∧ i.isPlaceholder = true) := by
  obtain ⟨-, -, hcalls, hnew⟩ := resolve_master F placeholders id [] cache c' calls eo h
  refine ⟨fun hmem => hcalls x hmem hx, ?_⟩
  intro hnone i hsome
  rcases hnew x i hx hsome with hc | rfl
  · rw [hnone] at hc
    cases hc
  · exact ⟨rfl, rfl⟩

/-- C2 witness: module A imports P, whose name is in the placeholder set;
the recorded node for P is an unexpanded placeholder and the frontend was
only invoked on A. -/
theorem placeholder_containment_witness :
    fpId "P" ∉ [fpId "A"] ∧
    (lookupCache [] (fpId "P") = none → ∀ i,
      lookupCache [(fpId "P", ⟨fpId "P", [], true⟩), (fpId "A", ⟨fpId "A", [fpId "P"], false⟩)]
        (fpId "P") = some i →
      i.directDeps = [] ∧ i.isPlaceholder = true) :=
  placeholder_containment [(fpId "A", .imports [fpId "P"])] ["P"] (fpId "A") []
    [(fpId "P", ⟨fpId "P", [], true⟩), (fpId "A", ⟨fpId "A", [fpId "P"], false⟩)]
    [fpId "A"] none (fpId "P")
    (by simp [resolveModule, resolveList, lookupFrontend, lookupCache, insertIfAbsent,
      placeholderInfo, fpId])
    (by decide)

/-- C3: for two modules importing each other (a imports b, b imports a),
resolving a terminates (the resolver is a total function) and fails with
`CyclicDependencyError` naming the cycle a, b, a. -/
theorem cycle_detection (a b : ModuleIdentity) (hab : a ≠ b) :
    resolveModule [(a, .imports [b]), (b, .imports [a])] [] a [] [] =
      ([], [a, b], some (.cyclicDependencyError [a, b, a])) := by
  have hFa : lookupFrontend [(a, .imports [b]), (b, .imports [a])] a = some (.imports [b]) := by
    rw [lookupFrontend, if_pos rfl]
  have hFb : lookupFrontend [(a, .imports [b]), (b, .imports [a])] b = some (.imports [a]) := by
    rw [lookupFrontend, if_neg hab, lookupFrontend, if_pos rfl]
  have h1a : a.name ∉ ([] : List String) := by simp
  have h1b : b.name ∉ ([] : List String) := by simp
  have h2a : ¬(lookupCache [] a).isSome := by simp [lookupCache]
  have h2b : ¬(lookupCache [] b).isSome := by simp [lookupCache]
  have hcyc : resolveModule [(a, .imports [b]), (b, .imports [a])] [] a [b, a] [] =
      ([], [], some (.cyclicDependencyError [a, b, a])) := by
    rw [resolveModule_cycle h1a h2a (by simp)]
    simp [cycleFrom, dropUntil]
  have hlist2 : resolveList [(a, .imports [b]), (b, .imports [a])] [] [a] [b, a] [] =
      ([], [], some (.cyclicDependencyError [a, b, a])) := by
    rw [resolveList_cons, hcyc]
  have h3b : b ∉ [a] := fun hm => hab (List.mem_singleton.mp hm).symm
  have hb2 : resolveModule [(a, .imports [b]), (b, .imports [a])] [] b [a] [] =
      ([], [b], some (.cyclicDependencyError [a, b, a])) := by
    rw [resolveModule_imports h1b h2b h3b hFb, hlist2]
  have hlist1 : resolveList [(a, .imports [b]), (b, .imports [a])] [] [b] [a] [] =
      ([], [b], some (.cyclicDependencyError [a, b, a])) := by
    rw [resolveList_cons, hb2]
  rw [resolveModule_imports h1a h2a (by simp) hFa, hlist1]

/-- C3 witness: the concrete modules named A and B. -/
theorem cycle_detection_witness :
    resolveModule [(fpId "A", .imports [fpId "B"]), (fpId "B", .imports [fpId "A"])]
        [] (fpId "A") [] [] =
      ([], [fpId "A", fpId "B"],
        some (.cyclicDependencyError [fpId "A", fpId "B", fpId "A"])) :=
  cycle_detection (fpId "A") (fpId "B") (by decide)

/-- C5: the module-dependencies cache invariant across a resolution: every
entry present before is present after with the identical value (no entry
removed, none mutated or overwritten), at most one entry per identity is
preserved (insertion is insert-if-absent only), and resolving an identity
that is already cached is a pure cache hit returning the cache completely
unchanged. -/
theorem cache_insert_once (F : Frontend) (placeholders : List String)
    (id : ModuleIdentity) (path : List ModuleIdentity) (cache c' : Cache)
    (calls : List ModuleIdentity) (eo : Option ScanError)
    (h : resolveModule F placeholders id path cache = (c', calls, eo)) :
    CacheExtends cache c' ∧ (keysNodup cache → keysNodup c') ∧
    ((lookupCache cache id).isSome → (c', calls, eo) = (cache, [], none)) := by
  obtain ⟨hext, hnd, -, -⟩ := resolve_master F placeholders id path cache c' calls eo h
  refine ⟨hext, hnd, ?_⟩
  intro hs
  by_cases hph : id.name ∈ placeholders
  · rw [resolveModule_placeholder hph, insertIfAbsent_of_isSome _ hs] at h
    exact h.symm
  · rw [resolveModule_hit hph hs] at h
    exact h.symm

/-- C5 witness: re-resolving the already-cached module A. -/
theorem cache_insert_once_witness :
    CacheExtends [(fpId "A", ⟨fpId "A", [], false⟩)] [(fpId "A", ⟨fpId "A", [], false⟩)] ∧
    (keysNodup [(fpId "A", ⟨fpId "A", [], false⟩)] →
      keysNodup [(fpId "A", ⟨fpId "A", [], false⟩)]) ∧
    ((lookupCache [(fpId "A", ⟨fpId "A", [], false⟩)] (fpId "A")).isSome →
      (([(fpId "A", ⟨fpId "A", [], false⟩)], [], none) :
          Cache × List ModuleIdentity × Option ScanError) =
        ([(fpId "A", ⟨fpId "A", [], false⟩)], [], none)) :=
  cache_insert_once [] [] (fpId "A") [] [(fpId "A", ⟨fpId "A", [], false⟩)]
    [(fpId "A", ⟨fpId "A", [], false⟩)] [] none
    (by simp [resolveModule, lookupCache, fpId])

/-- C4: the batch orchestrator processes every entry even when some fail:
each of the batch's entries contributes exactly one outcome (a written
output or a collected diagnostic, so a per-entry failure never aborts the
remaining entries), and the aggregate status is success iff there are no
collected diagnostics, iff every entry wrote its output. -/
theorem batch_no_abort_and_status (ci : CompilerInstance) (batch : List BatchScanInput)
    (placeholderModules : List String) (cache : Cache) :
    ((runBatch ci batch placeholderModules cache).1.outputs.length +
        (runBatch ci batch placeholderModules cache).1.failures.length = batch.length) ∧
    ((runBatch ci batch placeholderModules cache).1.success = true ↔
        (runBatch ci batch placeholderModules cache).1.failures = []) ∧
    ((runBatch ci batch placeholderModules cache).1.success = true ↔
        (runBatch ci batch placeholderModules cache).1.outputs.length = batch.length) := by
  induction batch generalizing cache with
  | nil => simp [runBatch]
  | cons entry rest ih =>
    rcases hres : resolveModule ci.frontend placeholderModules ⟨entry.moduleName, .firstParty⟩
      [] cache with ⟨c', calls, eo⟩
    have ih' := ih c'
    rcases hrest : runBatch ci rest placeholderModules c' with ⟨restRes, fc⟩
    rw [hrest] at ih'
    dsimp only at ih'
    have h1 := ih'.1
    have h2 := ih'.2.1
    have h3 := ih'.2.2
    cases eo with
    | some e =>
      rw [runBatch]
      simp only [hres, hrest]
      refine ⟨?_, by simp, ?_⟩
      · simp only [List.length_cons]
        omega
      · simp only [List.length_cons, Bool.false_eq_true, false_iff]
        omega
    | none =>
      rw [runBatch]
      simp only [hres, hrest]
      refine ⟨?_, by simpa using h2, ?_⟩
      · simp only [List.length_cons]
        omega
      · simp only [List.length_cons]
        rw [h3]
        omega

/-- C6: graph completeness for the fixture where R imports X and Y and X
imports Z: the scan succeeds, and the graph read back from the final cache
is exactly the four nodes R, X, Y, Z carrying exactly the edges R→X, R→Y,
X→Z, with no other node and no other edge. -/
theorem graph_completeness_fixture :
    resolveModule [(fpId "R", .imports [fpId "X", fpId "Y"]),
        (fpId "X", .imports [fpId "Z"]), (fpId "Y", .imports []), (fpId "Z", .imports [])]
        [] (fpId "R") [] [] =
      ([(fpId "Z", ⟨fpId "Z", [], false⟩), (fpId "X", ⟨fpId "X", [fpId "Z"], false⟩),
        (fpId "Y", ⟨fpId "Y", [], false⟩), (fpId "R", ⟨fpId "R", [fpId "X", fpId "Y"], false⟩)],
        [fpId "R", fpId "X", fpId "Z", fpId "Y"], none) ∧
    graphOf [(fpId "Z", ⟨fpId "Z", [], false⟩), (fpId "X", ⟨fpId "X", [fpId "Z"], false⟩),
        (fpId "Y", ⟨fpId "Y", [], false⟩), (fpId "R", ⟨fpId "R", [fpId "X", fpId "Y"], false⟩)]
      (fpId "R") =
      [⟨fpId "R", [fpId "X", fpId "Y"], false⟩, ⟨fpId "X", [fpId "Z"], false⟩,
        ⟨fpId "Z", [], false⟩, ⟨fpId "Y", [], false⟩] := by
  constructor
  · simp [resolveModule, resolveList, lookupFrontend, lookupCache, insertIfAbsent, fpId]
  · decide

/-- C7: two independently constructed tools resolving the same invocation
produce equal results, and the tools are isolated: running a scan on the
first tool of a pair leaves the second tool's state untouched, and the
second tool's subsequent resolution is exactly what it would have been had
the first tool never scanned (no shared cache entries or other state). -/
theorem cross_tool_isolation (inv invB : Invocation) (ph phB : List String)
    (w : DependencyScanningTool × DependencyScanningTool) :
    (scanFirst (DependencyScanningTool.new, DependencyScanningTool.new) inv ph).1 =
      (scanSecond (DependencyScanningTool.new, DependencyScanningTool.new) inv ph).1 ∧
    (scanFirst w invB phB).2.2 = w.2 ∧
    (scanSecond ((scanFirst w invB phB).2) inv ph).1 = (scanSecond w inv ph).1 :=
  ⟨rfl, rfl, rfl⟩

/-- C8: a malformed invocation (argument parsing produced a diagnostic)
fails the whole call with `InvalidInvocationError` carrying that diagnostic
text, and the tool — in particular its cache — is returned completely
unchanged; the bootstrap itself reports the same structured error and is
not even passed the cache. -/
theorem invalid_invocation_fatal_no_cache (tool : DependencyScanningTool)
    (args : List String) (diag : String) (placeholderModules : List String) :
    getDependencies tool ⟨args, .error diag⟩ placeholderModules =
      (.error (.invalidInvocationError diag), tool) ∧
    initCompilerInstanceForScan ⟨args, .error diag⟩ =
      .error (.invalidInvocationError diag) :=
  ⟨rfl, rfl⟩

end SwiftScan
namespace PrintAsClang

/-- The known C types of a list of members, in member order; `none` when
some member has no known C type. -/
def knownCTypes (typeMapping : PrimitiveTypeMapping) : List Ty → Option (List String)
  | [] => some []
  | t :: ts =>
    match printKnownCType t typeMapping, knownCTypes typeMapping ts with
    | some c, some cs => some (c :: cs)
    | _, _ => none

theorem structFields_eq (typeMapping : PrimitiveTypeMapping) (ts : List Ty) (n : Nat) :
    structFields typeMapping n ts =
      (knownCTypes typeMapping ts).map fun ctys =>
        (ctys.enumFrom n).foldr
          (fun p acc => "  " ++ p.2 ++ " _" ++ toString p.1 ++ ";\n" ++ acc) "" := by
  induction ts generalizing n with
  | nil => simp [structFields, knownCTypes]
  | cons t ts ih =>
    rw [structFields, ih (n + 1), knownCTypes]
    cases hc : printKnownCType t typeMapping with
    | none => simp
    | some c =>
      cases hm : knownCTypes typeMapping ts with
      | none => simp
      | some ctys => simp [List.enumFrom_cons]

/-- C9: printKnownType emits a C typedef of the record's single member type
exactly when the record has exactly one member; otherwise it emits a C
struct whose fields are exactly the record's members, printed in member
order and named by member index (and an empty record trips
printKnownStruct's more-than-one-member requirement, yielding no
output). -/
theorem printKnownType_typedef_or_struct (typeMapping : PrimitiveTypeMapping)
    (name : String) (typeRecord : TypeRecordABIRepresentation) :
    (∀ t, typeRecord.members = [t] →
      printKnownType typeMapping name typeRecord =
        (printKnownCType t typeMapping).map fun c => "typedef " ++ c ++ " " ++ name ++ ";\n") ∧
    (typeRecord.members.length ≠ 1 →
      printKnownType typeMapping name typeRecord =
        if typeRecord.members.length > 1 then
          (knownCTypes typeMapping typeRecord.members).map fun ctys =>
            "struct " ++ name ++ " \x7b\n" ++
              ((ctys.enumFrom 0).foldr
                (fun p acc => "  " ++ p.2 ++ " _" ++ toString p.1 ++ ";\n" ++ acc) "") ++
              "\x7d;\n"
        else none) := by
  constructor
  · intro t ht
    rw [printKnownType]
    simp [ht, printKnownTypedef]
  · intro hne
    rw [printKnownType, if_neg hne, printKnownStruct]
    by_cases hgt : typeRecord.members.length > 1
    · rw [if_pos hgt, if_pos hgt, structFields_eq]
      cases hk : knownCTypes typeMapping typeRecord.members with
      | none => rfl
      | some ctys => rfl
    · rw [if_neg hgt, if_neg hgt]

/-- C10: printSwiftToClangCoreScaffold emits, for every interop context and
type mapping, output of a fixed shape and order: everything nested inside
namespace swift, then the C++ implementation namespace, then an
extern "C" block, inside which the metadata response type is printed as
MetadataResponseTy before the request type MetadataRequestTy, the latter
derived from the single parameter of the metadata access function
signature. -/
theorem scaffold_shape (ctx : SwiftToClangInteropContext) (typeMapping : PrimitiveTypeMapping)
    (p : TypeRecordABIRepresentation) (resp req : String)
    (hp : ctx.typeMetadataAccessFunctionSignature.parameterTypes = [p])
    (hresp : printKnownType typeMapping "MetadataResponseTy"
      ctx.typeMetadataAccessFunctionSignature.returnType = some resp)
    (hreq : printKnownType typeMapping "MetadataRequestTy" p = some req) :
    printSwiftToClangCoreScaffold ctx typeMapping =
      some (printNamespace "swift" (printNamespace getCxxImplNamespaceName (printExternC
        ("// Swift type metadata response type.\n" ++ resp ++
          "// Swift type metadata request type.\n" ++ req)))) := by
  simp [printSwiftToClangCoreScaffold, printTypeMetadataResponseType, hresp, hp, hreq]

/-- C10 witness: a two-member response record and a single-member request
record. -/
theorem scaffold_shape_witness :
    printSwiftToClangCoreScaffold ⟨⟨⟨[⟨"I"⟩, ⟨"P"⟩]⟩, [⟨[⟨"I"⟩]⟩]⟩⟩
        [(⟨"I"⟩, ⟨"int", false⟩), (⟨"P"⟩, ⟨"void *", true⟩)] =
      some (printNamespace "swift" (printNamespace getCxxImplNamespaceName (printExternC
        ("// Swift type metadata response type.\n" ++
          "struct MetadataResponseTy \x7b\n  int _0;\n  void * _Null_unspecified _1;\n\x7d;\n" ++
          "// Swift type metadata request type.\n" ++
          "typedef int MetadataRequestTy;\n")))) :=
  scaffold_shape ⟨⟨⟨[⟨"I"⟩, ⟨"P"⟩]⟩, [⟨[⟨"I"⟩]⟩]⟩⟩
    [(⟨"I"⟩, ⟨"int", false⟩), (⟨"P"⟩, ⟨"void *", true⟩)]
    ⟨[⟨"I"⟩]⟩
    "struct MetadataResponseTy \x7b\n  int _0;\n  void * _Null_unspecified _1;\n\x7d;\n"
    "typedef int MetadataRequestTy;\n"
    rfl (by decide) (by decide)

/-- C9 witness: a record with a single known member yields a typedef. -/
theorem printKnownType_typedef_or_struct_witness :
    printKnownType [(⟨"Int32"⟩, ⟨"int", false⟩)] "MetadataRequestTy" ⟨[⟨"Int32"⟩]⟩ =
      (printKnownCType ⟨"Int32"⟩ [(⟨"Int32"⟩, ⟨"int", false⟩)]).map
        fun c => "typedef " ++ c ++ " " ++ "MetadataRequestTy" ++ ";\n" :=
  (printKnownType_typedef_or_struct [(⟨"Int32"⟩, ⟨"int", false⟩)] "MetadataRequestTy"
    ⟨[⟨"Int32"⟩]⟩).1 ⟨"Int32"⟩ rfl

end PrintAsClang
